import Mathlib

/-!
# LiteNES hardware abstraction layer (`src/hal.c`)

A shallow embedding of `hal.c`: the NES palette table, the pixel-buffer flush onto an
SDL surface, the background fill, the display flip, the frame wait loop and the
controller button query, followed by theorems about them.

Conventions of the embedding.

* C `int` values are `Int`; conversions to `unsigned int`, `Uint8` and `char` are the
  explicit functions `toUnsignedInt`, `toUint8` and `toChar`.
* Pixel memory of a surface is a list of bytes; a `Uint32` store writes four bytes,
  least significant first (the byte order of the hosts SDL2 is normally built for).
* An operation whose C behaviour is undefined (an index outside `nes_palette`, a read
  outside the pixel array of the buffer, a store outside the pixel memory, a signed
  overflow in the address computation) yields `none`.
* The SDL calls are modelled from their documented behaviour; the pixel encoder of a
  surface format (`SDL_MapRGB`) is an arbitrary function carried by the format.
-/

namespace LiteNES

/-! ## Definitions -/

/-- Value held by a `char` object initialised with the integer `v`: reduced into
`[-128, 127]` when `char` is signed, into `[0, 255]` when it is unsigned. -/
def toChar (charSigned : Bool) (v : Int) : Int :=
  if charSigned then (v + 128) % 256 - 128 else v % 256

/-- Conversion of an integer to `Uint8` (an argument of `SDL_MapRGB`). -/
def toUint8 (v : Int) : Nat := (v % 256).toNat

/-- Conversion of an `int` to `unsigned int` (32 bits). -/
def toUnsignedInt (v : Int) : Nat := (v % 4294967296).toNat

/-- One entry of `nes_palette`: three `char` channels. -/
structure PaletteEntry where
  r : Int
  g : Int
  b : Int
deriving DecidableEq, Repr

/-- The initialiser list of `nes_palette`, as written in the source. -/
def nes_palette_init : List (Nat × Nat × Nat) :=
  [ (0x80, 0x80, 0x80), (0x00, 0x3D, 0xA6), (0x00, 0x12, 0xB0), (0x44, 0x00, 0x96),
    (0xA1, 0x00, 0x5E), (0xC7, 0x00, 0x28), (0xBA, 0x06, 0x00), (0x8C, 0x17, 0x00),
    (0x5C, 0x2F, 0x00), (0x10, 0x45, 0x00), (0x05, 0x4A, 0x00), (0x00, 0x47, 0x2E),
    (0x00, 0x41, 0x66), (0x00, 0x00, 0x00), (0x05, 0x05, 0x05), (0x05, 0x05, 0x05),
    (0xC7, 0xC7, 0xC7), (0x00, 0x77, 0xFF), (0x21, 0x55, 0xFF), (0x82, 0x37, 0xFA),
    (0xEB, 0x2F, 0xB5), (0xFF, 0x29, 0x50), (0xFF, 0x22, 0x00), (0xD6, 0x32, 0x00),
    (0xC4, 0x62, 0x00), (0x35, 0x80, 0x00), (0x05, 0x8F, 0x00), (0x00, 0x8A, 0x55),
    (0x00, 0x99, 0xCC), (0x21, 0x21, 0x21), (0x09, 0x09, 0x09), (0x09, 0x09, 0x09),
    (0xFF, 0xFF, 0xFF), (0x0F, 0xD7, 0xFF), (0x69, 0xA2, 0xFF), (0xD4, 0x80, 0xFF),
    (0xFF, 0x45, 0xF3), (0xFF, 0x61, 0x8B), (0xFF, 0x88, 0x33), (0xFF, 0x9C, 0x12),
    (0xFA, 0xBC, 0x20), (0x9F, 0xE3, 0x0E), (0x2B, 0xF0, 0x35), (0x0C, 0xF0, 0xA4),
    (0x05, 0xFB, 0xFF), (0x5E, 0x5E, 0x5E), (0x0D, 0x0D, 0x0D), (0x0D, 0x0D, 0x0D),
    (0xFF, 0xFF, 0xFF), (0xA6, 0xFC, 0xFF), (0xB3, 0xEC, 0xFF), (0xDA, 0xAB, 0xEB),
    (0xFF, 0xA8, 0xF9), (0xFF, 0xAB, 0xB3), (0xFF, 0xD2, 0xB0), (0xFF, 0xEF, 0xA6),
    (0xFF, 0xF7, 0x9C), (0xD7, 0xE8, 0x95), (0xA6, 0xED, 0xAF), (0xA2, 0xF2, 0xDA),
    (0x99, 0xFF, 0xFC), (0xDD, 0xDD, 0xDD), (0x11, 0x11, 0x11), (0x11, 0x11, 0x11) ]

/-- The table `nes_palette` as it sits in memory: every initialiser stored in a `char`. -/
def nes_palette (charSigned : Bool) : List PaletteEntry :=
  nes_palette_init.map fun e =>
    { r := toChar charSigned e.1, g := toChar charSigned e.2.1, b := toChar charSigned e.2.2 }

/-- The three `Uint8` arguments `nes_palette[color].r, .g, .b` that `nes_set_bg_color`
and `nes_flush_buf` pass to `SDL_MapRGB`; `none` when `color` is outside the table. -/
def paletteArgs (charSigned : Bool) (color : Nat) : Option (Nat × Nat × Nat) :=
  ((nes_palette charSigned)[color]?).map fun e => (toUint8 e.r, toUint8 e.g, toUint8 e.b)

/-- Store the `n` low bytes of `v` at byte offset `off`, least significant byte first. -/
def storeLE (mem : List Nat) (off : Nat) : Nat → Nat → List Nat
  | 0, _ => mem
  | n + 1, v => (storeLE mem off n v).set (off + n) (v / 256 ^ n % 256)

/-- Read `n` bytes at byte offset `off` as one number, least significant byte first. -/
def loadLE (mem : List Nat) (off : Nat) : Nat → Nat
  | 0 => 0
  | n + 1 => loadLE mem off n + mem.getD (off + n) 0 * 256 ^ n

/-- The part of `SDL_PixelFormat` the code reads: the pixel width in bytes, and the
colour encoding that `SDL_MapRGB` computes for the format. -/
structure SDL_PixelFormat where
  BytesPerPixel : Nat
  encode : Nat → Nat → Nat → Nat

/-- An `SDL_Surface`: format, size in pixels, row length in bytes, pixel memory. -/
structure SDL_Surface where
  format : SDL_PixelFormat
  w : Nat
  h : Nat
  pitch : Nat
  pixels : List Nat

/-- The call `SDL_MapRGB(format, r, g, b)`: the encoding of a colour, a `Uint32`. -/
def SDL_MapRGB (format : SDL_PixelFormat) (r g b : Nat) : Nat :=
  format.encode r g b % 4294967296

/-- Byte offset of pixel `(x, y)` in the pixel memory of a surface. -/
def pixelOffset (s : SDL_Surface) (x y : Nat) : Nat :=
  y * s.pitch + x * s.format.BytesPerPixel

/-- The pixel of a surface at `(x, y)`: `BytesPerPixel` bytes at its offset. -/
def getPixel (s : SDL_Surface) (x y : Nat) : Nat :=
  loadLE s.pixels (pixelOffset s x y) s.format.BytesPerPixel

/-- Store one pixel value in the native width of the surface. -/
def putPixel (s : SDL_Surface) (x y : Nat) (v : Nat) : SDL_Surface :=
  { s with pixels := storeLE s.pixels (pixelOffset s x y) s.format.BytesPerPixel v }

/-- The pixel coordinates `(x, y)` of a `w` by `h` rectangle, row by row. -/
def rectCoords (w h : Nat) : List (Nat × Nat) :=
  (List.range h).flatMap fun y => (List.range w).map fun x => (x, y)

/-- The call `SDL_FillRect(surface, NULL, color)`: every pixel of the surface, row by row, is
set to `color` in the native pixel width. -/
def SDL_FillRect (s : SDL_Surface) (color : Nat) : SDL_Surface :=
  (rectCoords s.w s.h).foldl (fun acc c => putPixel acc c.1 c.2 color) s

/-- The call `SDL_BlitSurface(src, NULL, dst, NULL)` between two surfaces of one pixel format:
every pixel of `src` that lies inside `dst` is copied to the same place of `dst`. -/
def SDL_BlitSurface (src dst : SDL_Surface) : SDL_Surface :=
  (rectCoords (min src.w dst.w) (min src.h dst.h)).foldl
    (fun acc c => putPixel acc c.1 c.2 (getPixel src c.1 c.2)) dst

/-- What SDL guarantees of a surface: a pixel width of 1 to 4 bytes, rows of `pitch`
bytes that hold `w` pixels, a pixel memory of `h` rows whose size fits an `int`, and
colour encodings that fit the pixel width. -/
structure SDL_Surface.WellFormed (s : SDL_Surface) : Prop where
  bpp_pos : 1 ≤ s.format.BytesPerPixel
  bpp_le : s.format.BytesPerPixel ≤ 4
  row : s.w * s.format.BytesPerPixel ≤ s.pitch
  size : s.pixels.length = s.h * s.pitch
  range : s.h * s.pitch < 2147483648
  encode_lt : ∀ r g b, SDL_MapRGB s.format r g b < 256 ^ s.format.BytesPerPixel

/-- A `Pixel` of the emulation core: coordinates and NES colour code, three `int`s. -/
structure Pixel where
  x : Int
  y : Int
  c : Int
deriving DecidableEq, Repr

/-- A `PixelBuf`: the pixel array and the number `size` of entries in use. -/
structure PixelBuf where
  buf : List Pixel
  size : Int
deriving DecidableEq, Repr

/-- The function `nes_set_bg_color(c)`: fill the surface with the encoding of palette colour `c`. -/
def nes_set_bg_color (charSigned : Bool) (surface : SDL_Surface) (c : Int) :
    Option SDL_Surface :=
  if c < 0 then none
  else
    match paletteArgs charSigned c.toNat with
    | none => none
    | some (r, g, b) => some (SDL_FillRect surface (SDL_MapRGB surface.format r g b))

/-- Body of the loop of `nes_flush_buf` for one buffer entry. -/
def flush_pixel (charSigned : Bool) (surface : SDL_Surface) (pixel : Pixel) :
    Option SDL_Surface :=
  let x := pixel.x
  let y := pixel.y
  let color := toUnsignedInt pixel.c
  if x < 0 ∨ y < 0 then some surface
  else
    let bpp := surface.format.BytesPerPixel
    if y.toNat * surface.pitch < 2147483648 ∧ x.toNat * bpp < 2147483648 then
      let p_addr := y.toNat * surface.pitch + x.toNat * bpp
      match paletteArgs charSigned color with
      | none => none
      | some (r, g, b) =>
        if p_addr + 4 ≤ surface.pixels.length then
          some { surface with
            pixels := storeLE surface.pixels p_addr 4 (SDL_MapRGB surface.format r g b) }
        else none
    else none

/-- The loop `for (i = ...; i < buf->size; i++)` of `nes_flush_buf`, with `n` iterations
left to run from index `i`. -/
def flush_loop (charSigned : Bool) (buf : PixelBuf) :
    Nat → Nat → SDL_Surface → Option SDL_Surface
  | 0, _, surface => some surface
  | n + 1, i, surface =>
    match buf.buf[i]? with
    | none => none
    | some pixel =>
      match flush_pixel charSigned surface pixel with
      | none => none
      | some surface1 => flush_loop charSigned buf n (i + 1) surface1

/-- The function `nes_flush_buf(buf)`: the loop runs `buf->size` times from index 0 (not at all when
`size` is not positive). The result is the surface together with the buffer, which the
function only reads. -/
def nes_flush_buf (charSigned : Bool) (surface : SDL_Surface) (buf : PixelBuf) :
    Option (SDL_Surface × PixelBuf) :=
  (flush_loop charSigned buf buf.size.toNat 0 surface).map fun s => (s, buf)

/-- The function `nes_flip_display()`: blit the surface onto the window surface, which
`SDL_UpdateWindowSurface` then shows; the result is the displayed window surface. -/
def nes_flip_display (surface screen_surface : SDL_Surface) : SDL_Surface :=
  SDL_BlitSurface surface screen_surface

/-- The `SDL_GameControllerButton` values used by `nes_key_state`. -/
inductive SDL_GameControllerButton where
  | SDL_CONTROLLER_BUTTON_A
  | SDL_CONTROLLER_BUTTON_B
  | SDL_CONTROLLER_BUTTON_BACK
  | SDL_CONTROLLER_BUTTON_GUIDE
  | SDL_CONTROLLER_BUTTON_START
  | SDL_CONTROLLER_BUTTON_DPAD_UP
  | SDL_CONTROLLER_BUTTON_DPAD_DOWN
  | SDL_CONTROLLER_BUTTON_DPAD_LEFT
  | SDL_CONTROLLER_BUTTON_DPAD_RIGHT
deriving DecidableEq, Repr

/-- The host side of the controller service: `openController which` is the result of
`SDL_GameControllerOpen(which)` (`none` is `NULL`), and `pressed handle button` is the
live state that `SDL_GameControllerGetButton` reports. -/
structure Host where
  openController : Int → Option Nat
  pressed : Nat → SDL_GameControllerButton → Bool

/-- The globals `controller` and `controller_id`. -/
structure ControllerState where
  controller : Option Nat
  controller_id : Int
deriving DecidableEq, Repr

/-- The events `wait_for_frame` tells apart; `other` is any event type without a case in
its `switch`. -/
inductive SDL_Event where
  | SDL_CONTROLLERDEVICEADDED (which : Int)
  | SDL_CONTROLLERDEVICEREMOVED (which : Int)
  | SDL_USEREVENT
  | SDL_QUIT
  | other
deriving DecidableEq, Repr

/-- How a call of `wait_for_frame` ends on a given sequence of delivered events:
it returns (leaving the events not yet taken from the queue), the process exits, or
the call is still blocked in `SDL_WaitEvent` when the sequence is used up. -/
inductive WaitResult where
  | returned (st : ControllerState) (rest : List SDL_Event)
  | exited
  | blocked (st : ControllerState)
deriving DecidableEq, Repr

/-- The function `wait_for_frame()` on the sequence of events that `SDL_WaitEvent` delivers. -/
def wait_for_frame (host : Host) : ControllerState → List SDL_Event → WaitResult
  | st, [] => .blocked st
  | st, e :: queue =>
    match e with
    | .SDL_CONTROLLERDEVICEADDED which =>
      wait_for_frame host
        { controller_id := which, controller := host.openController which } queue
    | .SDL_CONTROLLERDEVICEREMOVED which =>
      wait_for_frame host
        (if which = st.controller_id then { st with controller := none } else st) queue
    | .SDL_USEREVENT => .returned st queue
    | .SDL_QUIT => .exited
    | .other => wait_for_frame host st queue

/-- The buttons of the NES pad, `button_t` in the source, numbered from `A = 1`. -/
inductive button_t where
  | A
  | B
  | SELECT
  | START
  | UP
  | DOWN
  | LEFT
  | RIGHT
  | POWER
deriving DecidableEq, Repr

/-- The `button_t` with a given integer value, if there is one (values 1 to 9). -/
def button_t.ofInt (b : Int) : Option button_t :=
  if b = 1 then some .A
  else if b = 2 then some .B
  else if b = 3 then some .SELECT
  else if b = 4 then some .START
  else if b = 5 then some .UP
  else if b = 6 then some .DOWN
  else if b = 7 then some .LEFT
  else if b = 8 then some .RIGHT
  else if b = 9 then some .POWER
  else none

/-- The function `nes_key_state(b)`: 0 without a controller; otherwise the state of the
SDL button chosen by the `switch`. For `b` outside 1..9 the `default` case leaves
`sdl_btn` uninitialised and the query has no defined result: `none`. -/
def nes_key_state (host : Host) (st : ControllerState) (b : Int) : Option Int :=
  match st.controller with
  | none => some 0
  | some handle =>
    match button_t.ofInt b with
    | none => none
    | some nes_btn =>
      let sdl_btn : SDL_GameControllerButton :=
        match nes_btn with
        | .A => .SDL_CONTROLLER_BUTTON_A
        | .B => .SDL_CONTROLLER_BUTTON_B
        | .SELECT => .SDL_CONTROLLER_BUTTON_BACK
        | .START => .SDL_CONTROLLER_BUTTON_START
        | .UP => .SDL_CONTROLLER_BUTTON_DPAD_UP
        | .DOWN => .SDL_CONTROLLER_BUTTON_DPAD_DOWN
        | .LEFT => .SDL_CONTROLLER_BUTTON_DPAD_LEFT
        | .RIGHT => .SDL_CONTROLLER_BUTTON_DPAD_RIGHT
        | .POWER => .SDL_CONTROLLER_BUTTON_GUIDE
      let val : Int := if host.pressed handle sdl_btn then 1 else 0
      some val

/-- Two surfaces with the same format and geometry (their pixel contents may differ). -/
def SameShape (s t : SDL_Surface) : Prop :=
  t.format = s.format ∧ t.w = s.w ∧ t.h = s.h ∧ t.pitch = s.pitch ∧
    t.pixels.length = s.pixels.length

/-- The encoding, in a pixel format, of the RGB bytes the table lists for colour index
`i` (0 for an index outside the table). -/
def paletteEncoding (format : SDL_PixelFormat) (i : Nat) : Nat :=
  match nes_palette_init[i]? with
  | some (r, g, b) => SDL_MapRGB format r g b
  | none => 0

/-- The entries of a buffer that are in use: the first `size` elements of the array. -/
def entries (buf : PixelBuf) : List Pixel := buf.buf.take buf.size.toNat

/-- The loop body applied to a list of entries in order. -/
def flushList (charSigned : Bool) : SDL_Surface → List Pixel → Option SDL_Surface
  | s, [] => some s
  | s, p :: l =>
    match flush_pixel charSigned s p with
    | none => none
    | some s1 => flushList charSigned s1 l

/-- What one loop iteration does, as a function of the format and geometry of the
surface only: nothing (`some none`), one 4-byte store (`some (some (offset, value))`),
or undefined behaviour (`none`). -/
def flushAction (charSigned : Bool) (format : SDL_PixelFormat) (pitch len : Nat)
    (p : Pixel) : Option (Option (Nat × Nat)) :=
  if p.x < 0 ∨ p.y < 0 then some none
  else if p.y.toNat * pitch < 2147483648 ∧ p.x.toNat * format.BytesPerPixel < 2147483648 then
    match paletteArgs charSigned (toUnsignedInt p.c) with
    | none => none
    | some (r, g, b) =>
      if p.y.toNat * pitch + p.x.toNat * format.BytesPerPixel + 4 ≤ len then
        some (some (p.y.toNat * pitch + p.x.toNat * format.BytesPerPixel,
          SDL_MapRGB format r g b))
      else none
  else none

/-- Carry out what `flushAction` describes on a surface. -/
def applyAction (s : SDL_Surface) : Option (Nat × Nat) → SDL_Surface
  | none => s
  | some (off, v) => { s with pixels := storeLE s.pixels off 4 v }

/-- The 4-byte store of entry `p` is defined on surface `s`: the two products of the
address computation fit an `int` and the four bytes lie inside the pixel memory. -/
def StoreInBounds (s : SDL_Surface) (p : Pixel) : Prop :=
  p.y.toNat * s.pitch < 2147483648 ∧ p.x.toNat * s.format.BytesPerPixel < 2147483648 ∧
    p.y.toNat * s.pitch + p.x.toNat * s.format.BytesPerPixel + 4 ≤ s.pixels.length

instance (s : SDL_Surface) (p : Pixel) : Decidable (StoreInBounds s p) := by
  unfold StoreInBounds
  infer_instance

/-- Colour of the last entry of a list with coordinates `(x, y)`, if there is one. -/
def lastColorAt (x y : Nat) : List Pixel → Option Int
  | [] => none
  | p :: l =>
    match lastColorAt x y l with
    | some c => some c
    | none => if p.x = x ∧ p.y = y then some p.c else none

/-- Effect on the controller globals of one event that does not end the wait. -/
def handle_event (host : Host) (st : ControllerState) : SDL_Event → ControllerState
  | .SDL_CONTROLLERDEVICEADDED which =>
    { controller_id := which, controller := host.openController which }
  | .SDL_CONTROLLERDEVICEREMOVED which =>
    if which = st.controller_id then { st with controller := none } else st
  | _ => st

/-- Effect of a sequence of events that do not end the wait, in queue order. -/
def process_events (host : Host) (st : ControllerState) (q : List SDL_Event) :
    ControllerState :=
  q.foldl (handle_event host) st

/-- Run `n` successive calls of `wait_for_frame`, as in the frame loop
`while (1) { wait_for_frame(); do_something(); }` of the header comment. -/
def wait_frames (host : Host) : Nat → ControllerState → List SDL_Event → WaitResult
  | 0, st, q => .returned st q
  | n + 1, st, q =>
    match wait_for_frame host st q with
    | .returned st1 rest => wait_frames host n st1 rest
    | .exited => .exited
    | .blocked st1 => .blocked st1

/-- No timer tick and no quit event. -/
def NoTickNoQuit (q : List SDL_Event) : Prop :=
  ∀ e ∈ q, e ≠ .SDL_USEREVENT ∧ e ≠ .SDL_QUIT

instance (q : List SDL_Event) : Decidable (NoTickNoQuit q) := by
  unfold NoTickNoQuit
  infer_instance

/-- A 32-bit format: one byte per channel, red highest. -/
def rgb888 : SDL_PixelFormat :=
  { BytesPerPixel := 4, encode := fun r g b => r % 256 * 65536 + g % 256 * 256 + b % 256 }

/-- A 16-bit format: 5 bits of red, 6 of green, 5 of blue. -/
def rgb565 : SDL_PixelFormat :=
  { BytesPerPixel := 2, encode := fun r g b => r % 256 / 8 * 2048 + g % 256 / 4 * 32 + b % 256 / 8 }

/-- A 2 by 1 surface with 4-byte pixels, every byte 7. -/
def surface32 : SDL_Surface :=
  { format := rgb888, w := 2, h := 1, pitch := 8, pixels := [7, 7, 7, 7, 7, 7, 7, 7] }

/-- A 3 by 1 surface with 2-byte pixels, every byte 7. -/
def surface16 : SDL_Surface :=
  { format := rgb565, w := 3, h := 1, pitch := 6, pixels := [7, 7, 7, 7, 7, 7] }

/-- A host on which every controller opens, with handle 7, and START is held down. -/
def hostStartHeld : Host :=
  { openController := fun _ => some 7
    pressed := fun _ btn => decide (btn = .SDL_CONTROLLER_BUTTON_START) }

/-- One frame of output as the emulation core drives it: `nes_set_bg_color(bg)`, then
`nes_flush_buf(buf)`, then `nes_flip_display()`; the result is the displayed window
surface. -/
def render_frame (charSigned : Bool) (surface screen_surface : SDL_Surface) (bg : Int)
    (buf : PixelBuf) : Option SDL_Surface :=
  match nes_set_bg_color charSigned surface bg with
  | none => none
  | some s1 =>
    match nes_flush_buf charSigned s1 buf with
    | none => none
    | some (s2, _) => some (nes_flip_display s2 screen_surface)

/-! ## Theorems -/

theorem length_storeLE (mem : List Nat) (off n v : Nat) :
    (storeLE mem off n v).length = mem.length := by
  induction n with
  | zero => rfl
  | succ n ih => simp [storeLE, ih]

theorem getD_storeLE (mem : List Nat) (off n v k : Nat) :
    (storeLE mem off n v).getD k 0 =
      if off ≤ k ∧ k < off + n ∧ k < mem.length then v / 256 ^ (k - off) % 256
      else mem.getD k 0 := by
  induction n with
  | zero => rw [if_neg (by omega)]; rfl
  | succ n ih =>
    simp only [storeLE, List.getD_eq_getElem?_getD, List.getElem?_set, length_storeLE]
    simp only [List.getD_eq_getElem?_getD] at ih
    by_cases hk : off + n = k
    · subst hk
      by_cases hl : off + n < mem.length
      · simp [hl]
      · have : mem[off + n]? = none := List.getElem?_eq_none (by omega)
        simp [hl, this]
    · rw [if_neg hk, ih]
      by_cases h1 : off ≤ k ∧ k < off + n ∧ k < mem.length
      · rw [if_pos h1, if_pos ⟨h1.1, by omega, h1.2.2⟩]
      · rw [if_neg h1, if_neg (by omega)]

theorem loadLE_congr (m1 m2 : List Nat) (off n : Nat)
    (h : ∀ k, off ≤ k → k < off + n → m1.getD k 0 = m2.getD k 0) :
    loadLE m1 off n = loadLE m2 off n := by
  induction n with
  | zero => rfl
  | succ n ih =>
    simp only [loadLE]
    rw [ih (fun k h1 h2 => h k h1 (by omega)), h (off + n) (by omega) (by omega)]

theorem loadLE_eq_mod (mem : List Nat) (off n v : Nat)
    (h : ∀ j, j < n → mem.getD (off + j) 0 = v / 256 ^ j % 256) :
    loadLE mem off n = v % 256 ^ n := by
  induction n with
  | zero => simp [loadLE, Nat.mod_one]
  | succ n ih =>
    simp only [loadLE]
    rw [ih (fun j hj => h j (by omega)), h n (by omega), Nat.mod_pow_succ]
    ring

/-- Reading back a stored value: the low `n` bytes of `v`. -/
theorem loadLE_storeLE_same (mem : List Nat) (off n v : Nat) (hin : off + n ≤ mem.length) :
    loadLE (storeLE mem off n v) off n = v % 256 ^ n := by
  apply loadLE_eq_mod
  intro j hj
  rw [getD_storeLE, if_pos ⟨by omega, by omega, by omega⟩]
  simp

/-- A store does not change what is read from a disjoint range. -/
theorem loadLE_storeLE_disjoint (mem : List Nat) (off n v off2 n2 : Nat)
    (hd : off2 + n2 ≤ off ∨ off + n ≤ off2) :
    loadLE (storeLE mem off n v) off2 n2 = loadLE mem off2 n2 := by
  apply loadLE_congr
  intro k h1 h2
  rw [getD_storeLE, if_neg (by omega)]

theorem mem_rectCoords (w h x y : Nat) : (x, y) ∈ rectCoords w h ↔ x < w ∧ y < h := by
  simp only [rectCoords, List.mem_flatMap, List.mem_range, List.mem_map, Prod.mk.injEq]
  constructor
  · rintro ⟨a, ha, b, hb, rfl, rfl⟩
    exact ⟨hb, ha⟩
  · rintro ⟨hx, hy⟩
    exact ⟨y, hy, x, hx, rfl, rfl⟩

theorem SameShape.refl (s : SDL_Surface) : SameShape s s := ⟨rfl, rfl, rfl, rfl, rfl⟩

theorem SameShape.trans {s t u : SDL_Surface} (h1 : SameShape s t) (h2 : SameShape t u) :
    SameShape s u := by
  obtain ⟨a1, a2, a3, a4, a5⟩ := h1
  obtain ⟨b1, b2, b3, b4, b5⟩ := h2
  exact ⟨b1.trans a1, b2.trans a2, b3.trans a3, b4.trans a4, b5.trans a5⟩

theorem SameShape.wellFormed {s t : SDL_Surface} (h : SameShape s t) (hs : s.WellFormed) :
    t.WellFormed := by
  obtain ⟨a1, a2, a3, a4, a5⟩ := h
  constructor
  · rw [a1]; exact hs.bpp_pos
  · rw [a1]; exact hs.bpp_le
  · rw [a1, a2, a4]; exact hs.row
  · rw [a5, a3, a4]; exact hs.size
  · rw [a3, a4]; exact hs.range
  · rw [a1]; exact hs.encode_lt

theorem sameShape_putPixel (s : SDL_Surface) (x y v : Nat) : SameShape s (putPixel s x y v) :=
  ⟨rfl, rfl, rfl, rfl, by simp [putPixel, length_storeLE]⟩

/-- The bytes of an in-range pixel lie inside the pixel memory, inside its row. -/
theorem pixel_in_memory {s : SDL_Surface} (hs : s.WellFormed) {x y : Nat}
    (hx : x < s.w) (hy : y < s.h) :
    x * s.format.BytesPerPixel + s.format.BytesPerPixel ≤ s.pitch ∧
      y * s.pitch + s.pitch ≤ s.pixels.length := by
  have h1 : (x + 1) * s.format.BytesPerPixel ≤ s.w * s.format.BytesPerPixel :=
    Nat.mul_le_mul_right _ hx
  have h2 : (y + 1) * s.pitch ≤ s.h * s.pitch := Nat.mul_le_mul_right _ hy
  rw [Nat.add_mul, Nat.one_mul] at h1 h2
  have h3 := hs.row
  have h4 := hs.size
  omega

/-- The byte ranges of two different in-range pixels are disjoint. -/
theorem pixel_disjoint {s : SDL_Surface} (hs : s.WellFormed) {x y x2 y2 : Nat}
    (hx : x < s.w) (hx2 : x2 < s.w) (hne : (x, y) ≠ (x2, y2)) :
    pixelOffset s x y + s.format.BytesPerPixel ≤ pixelOffset s x2 y2 ∨
      pixelOffset s x2 y2 + s.format.BytesPerPixel ≤ pixelOffset s x y := by
  have h1 : (x + 1) * s.format.BytesPerPixel ≤ s.w * s.format.BytesPerPixel :=
    Nat.mul_le_mul_right _ hx
  have h2 : (x2 + 1) * s.format.BytesPerPixel ≤ s.w * s.format.BytesPerPixel :=
    Nat.mul_le_mul_right _ hx2
  rw [Nat.add_mul, Nat.one_mul] at h1 h2
  have h3 := hs.row
  unfold pixelOffset
  rcases Nat.lt_trichotomy y y2 with hy | hy | hy
  · left
    have h5 : (y + 1) * s.pitch ≤ y2 * s.pitch := Nat.mul_le_mul_right _ hy
    rw [Nat.add_mul, Nat.one_mul] at h5
    omega
  · subst hy
    have hxne : x ≠ x2 := fun h => hne (by rw [h])
    rcases Nat.lt_or_gt_of_ne hxne with hlt | hlt
    · left
      have h5 : (x + 1) * s.format.BytesPerPixel ≤ x2 * s.format.BytesPerPixel :=
        Nat.mul_le_mul_right _ hlt
      rw [Nat.add_mul, Nat.one_mul] at h5
      omega
    · right
      have h5 : (x2 + 1) * s.format.BytesPerPixel ≤ x * s.format.BytesPerPixel :=
        Nat.mul_le_mul_right _ hlt
      rw [Nat.add_mul, Nat.one_mul] at h5
      omega
  · right
    have h5 : (y2 + 1) * s.pitch ≤ y * s.pitch := Nat.mul_le_mul_right _ hy
    rw [Nat.add_mul, Nat.one_mul] at h5
    omega

theorem getPixel_putPixel_same {s : SDL_Surface} (hs : s.WellFormed) {x y : Nat}
    (hx : x < s.w) (hy : y < s.h) (v : Nat) :
    getPixel (putPixel s x y v) x y = v % 256 ^ s.format.BytesPerPixel := by
  have h := pixel_in_memory hs hx hy
  simp only [getPixel, putPixel, pixelOffset]
  apply loadLE_storeLE_same
  omega

theorem getPixel_putPixel_other {s : SDL_Surface} (hs : s.WellFormed) {x y x2 y2 : Nat}
    (hx : x < s.w) (hx2 : x2 < s.w) (hne : (x, y) ≠ (x2, y2)) (v : Nat) :
    getPixel (putPixel s x y v) x2 y2 = getPixel s x2 y2 := by
  have h := pixel_disjoint hs hx hx2 hne
  show loadLE (storeLE s.pixels (pixelOffset s x y) s.format.BytesPerPixel v)
    (pixelOffset s x2 y2) s.format.BytesPerPixel = _
  apply loadLE_storeLE_disjoint
  omega

/-- A run of native-width pixel stores, one per listed coordinate, with the value a
function of the coordinate: every listed in-range pixel ends up holding its value. -/
theorem getPixel_foldl_putPixel (f : Nat × Nat → Nat) (cs : List (Nat × Nat))
    (s : SDL_Surface) (hs : s.WellFormed) (hcs : ∀ c ∈ cs, c.1 < s.w ∧ c.2 < s.h)
    (x y : Nat) (hx : x < s.w) (hy : y < s.h)
    (h : (x, y) ∈ cs ∨ getPixel s x y = f (x, y) % 256 ^ s.format.BytesPerPixel) :
    SameShape s (cs.foldl (fun acc c => putPixel acc c.1 c.2 (f c)) s) ∧
    getPixel (cs.foldl (fun acc c => putPixel acc c.1 c.2 (f c)) s) x y =
      f (x, y) % 256 ^ s.format.BytesPerPixel := by
  induction cs generalizing s with
  | nil =>
    rcases h with h | h
    · simp at h
    · exact ⟨SameShape.refl s, h⟩
  | cons c cs ih =>
    simp only [List.foldl_cons]
    have hc := hcs c (List.mem_cons_self _ _)
    have hsh := sameShape_putPixel s c.1 c.2 (f c)
    have hwf := hsh.wellFormed hs
    have hstep : (x, y) ∈ cs ∨ getPixel (putPixel s c.1 c.2 (f c)) x y =
        f (x, y) % 256 ^ (putPixel s c.1 c.2 (f c)).format.BytesPerPixel := by
      by_cases hceq : c = (x, y)
      · right
        subst hceq
        exact getPixel_putPixel_same hs hx hy _
      · rcases h with h | h
        · left
          rcases List.mem_cons.mp h with h | h
          · exact absurd h.symm hceq
          · exact h
        · right
          rw [getPixel_putPixel_other hs hc.1 hx hceq]
          exact h
    have := ih (putPixel s c.1 c.2 (f c)) hwf
      (fun d hd => hcs d (List.mem_cons_of_mem _ hd)) hx hy hstep
    exact ⟨hsh.trans this.1, this.2⟩

/-- After `SDL_FillRect` every pixel of the surface holds the fill colour. -/
theorem getPixel_FillRect {s : SDL_Surface} (hs : s.WellFormed) (color : Nat)
    {x y : Nat} (hx : x < s.w) (hy : y < s.h) :
    SameShape s (SDL_FillRect s color) ∧
    getPixel (SDL_FillRect s color) x y = color % 256 ^ s.format.BytesPerPixel := by
  have := getPixel_foldl_putPixel (fun _ => color) (rectCoords s.w s.h) s hs
    (fun c hc => (mem_rectCoords s.w s.h c.1 c.2).mp hc) x y hx hy
    (Or.inl ((mem_rectCoords s.w s.h x y).mpr ⟨hx, hy⟩))
  exact this

theorem getPixel_BlitSurface {src dst : SDL_Surface} (hd : dst.WellFormed)
    {x y : Nat} (hx : x < min src.w dst.w) (hy : y < min src.h dst.h) :
    getPixel (SDL_BlitSurface src dst) x y =
      getPixel src x y % 256 ^ dst.format.BytesPerPixel := by
  have hx2 : x < dst.w := lt_of_lt_of_le hx (min_le_right _ _)
  have hy2 : y < dst.h := lt_of_lt_of_le hy (min_le_right _ _)
  have := getPixel_foldl_putPixel (fun c => getPixel src c.1 c.2)
    (rectCoords (min src.w dst.w) (min src.h dst.h)) dst hd
    (fun c hc => by
      have h := (mem_rectCoords _ _ c.1 c.2).mp hc
      exact ⟨lt_of_lt_of_le h.1 (min_le_right _ _), lt_of_lt_of_le h.2 (min_le_right _ _)⟩)
    x y hx2 hy2 (Or.inl ((mem_rectCoords _ _ x y).mpr ⟨hx, hy⟩))
  exact this.2

theorem SDL_Surface.ext_of_sameShape {s t : SDL_Surface} (h : SameShape s t)
    (hp : t.pixels = s.pixels) : t = s := by
  obtain ⟨a1, a2, a3, a4, _⟩ := h
  cases s
  cases t
  simp only at a1 a2 a3 a4 hp
  subst a1 a2 a3 a4 hp
  rfl

theorem list_eq_of_getD {l1 l2 : List Nat} (hl : l1.length = l2.length)
    (h : ∀ k, l1.getD k 0 = l2.getD k 0) : l1 = l2 := by
  apply List.ext_getElem hl
  intro n h1 h2
  have := h n
  rwa [List.getD_eq_getElem _ _ h1, List.getD_eq_getElem _ _ h2] at this

theorem toUint8_toChar (charSigned : Bool) (v : Nat) (hv : v < 256) :
    toUint8 (toChar charSigned (v : Int)) = v := by
  cases charSigned <;> simp only [toUint8, toChar] <;> omega

theorem nes_palette_init_lt :
    ∀ e ∈ nes_palette_init, e.1 < 256 ∧ e.2.1 < 256 ∧ e.2.2 < 256 := by
  decide

/-- The arguments handed to `SDL_MapRGB` are the bytes written in the initialiser,
whether `char` is signed or not. -/
theorem paletteArgs_eq (charSigned : Bool) (color : Nat) :
    paletteArgs charSigned color = nes_palette_init[color]? := by
  unfold paletteArgs nes_palette
  rw [List.getElem?_map]
  cases h : nes_palette_init[color]? with
  | none => rfl
  | some e =>
    have hm := nes_palette_init_lt e (List.getElem?_mem h)
    obtain ⟨r, g, b⟩ := e
    simp only [Option.map_some', toUint8_toChar _ _ hm.1, toUint8_toChar _ _ hm.2.1,
      toUint8_toChar _ _ hm.2.2]

theorem nes_palette_init_length : nes_palette_init.length = 64 := by decide

theorem toUnsignedInt_of_range {c : Int} (h0 : 0 ≤ c) (h1 : c ≤ 63) :
    toUnsignedInt c = c.toNat := by
  unfold toUnsignedInt
  congr 1
  omega

theorem nes_palette_init_some {i : Nat} (hi : i < 64) :
    ∃ r g b, nes_palette_init[i]? = some (r, g, b) := by
  have h : i < nes_palette_init.length := by rw [nes_palette_init_length]; exact hi
  rw [List.getElem?_eq_getElem h]
  exact ⟨_, _, _, rfl⟩

theorem flush_loop_eq (charSigned : Bool) (buf : PixelBuf) :
    ∀ (n i : Nat) (s : SDL_Surface), i + n ≤ buf.buf.length →
      flush_loop charSigned buf n i s = flushList charSigned s ((buf.buf.drop i).take n) := by
  intro n
  induction n with
  | zero => intro i s _; simp [flush_loop, flushList]
  | succ n ih =>
    intro i s h
    have hi : i < buf.buf.length := by omega
    rw [List.drop_eq_getElem_cons hi, List.take_succ_cons]
    simp only [flush_loop, flushList, List.getElem?_eq_getElem hi]
    cases hfp : flush_pixel charSigned s buf.buf[i] with
    | none => rfl
    | some s1 => exact ih (i + 1) s1 (by omega)

theorem nes_flush_buf_eq (charSigned : Bool) (s : SDL_Surface) (buf : PixelBuf)
    (h : buf.size ≤ buf.buf.length) :
    nes_flush_buf charSigned s buf =
      (flushList charSigned s (entries buf)).map fun s1 => (s1, buf) := by
  unfold nes_flush_buf entries
  rw [flush_loop_eq charSigned buf buf.size.toNat 0 s (by omega)]
  simp

theorem flush_pixel_eq (charSigned : Bool) (s : SDL_Surface) (p : Pixel) :
    flush_pixel charSigned s p =
      (flushAction charSigned s.format s.pitch s.pixels.length p).map (applyAction s) := by
  unfold flush_pixel flushAction
  by_cases h1 : p.x < 0 ∨ p.y < 0
  · simp [h1, applyAction]
  · simp only [h1, if_false]
    by_cases h2 : p.y.toNat * s.pitch < 2147483648 ∧
        p.x.toNat * s.format.BytesPerPixel < 2147483648
    · simp only [h2, and_self, if_true]
      cases paletteArgs charSigned (toUnsignedInt p.c) with
      | none => rfl
      | some e =>
        obtain ⟨r, g, b⟩ := e
        by_cases h3 : p.y.toNat * s.pitch + p.x.toNat * s.format.BytesPerPixel + 4 ≤
            s.pixels.length
        · simp [h3, applyAction]
        · simp [h3]
    · simp [h2]

theorem sameShape_applyAction (s : SDL_Surface) (a : Option (Nat × Nat)) :
    SameShape s (applyAction s a) := by
  cases a with
  | none => exact SameShape.refl s
  | some w => exact ⟨rfl, rfl, rfl, rfl, by simp [applyAction, length_storeLE]⟩

theorem flush_pixel_sameShape {charSigned : Bool} {s s1 : SDL_Surface} {p : Pixel}
    (h : flush_pixel charSigned s p = some s1) : SameShape s s1 := by
  rw [flush_pixel_eq] at h
  cases ha : flushAction charSigned s.format s.pitch s.pixels.length p with
  | none => rw [ha] at h; simp at h
  | some a =>
    rw [ha] at h
    simp only [Option.map_some', Option.some.injEq] at h
    rw [← h]
    exact sameShape_applyAction s a

theorem flushList_sameShape {charSigned : Bool} {l : List Pixel} :
    ∀ {s s1 : SDL_Surface}, flushList charSigned s l = some s1 → SameShape s s1 := by
  induction l with
  | nil =>
    intro s s1 h
    simp only [flushList, Option.some.injEq] at h
    rw [← h]
    exact SameShape.refl s
  | cons p l ih =>
    intro s s1 h
    simp only [flushList] at h
    cases hp : flush_pixel charSigned s p with
    | none => rw [hp] at h; simp at h
    | some s2 =>
      rw [hp] at h
      exact (flush_pixel_sameShape hp).trans (ih h)

/-- Two runs of one loop iteration on surfaces of the same shape: the second is defined
when the first is, and every byte is either set to the same value by both or left
alone by both. -/
theorem flush_pixel_two {charSigned : Bool} {s t s1 : SDL_Surface} {p : Pixel}
    (hst : SameShape s t) (h : flush_pixel charSigned s p = some s1) :
    ∃ t1, flush_pixel charSigned t p = some t1 ∧ SameShape s1 t1 ∧
      ∀ k, s1.pixels.getD k 0 = t1.pixels.getD k 0 ∨
        (s1.pixels.getD k 0 = s.pixels.getD k 0 ∧ t1.pixels.getD k 0 = t.pixels.getD k 0) := by
  obtain ⟨a1, a2, a3, a4, a5⟩ := hst
  rw [flush_pixel_eq] at h
  rw [flush_pixel_eq, a1, a4, a5]
  cases ha : flushAction charSigned s.format s.pitch s.pixels.length p with
  | none => rw [ha] at h; simp at h
  | some a =>
    rw [ha] at h
    simp only [Option.map_some', Option.some.injEq] at h
    subst h
    refine ⟨applyAction t a, rfl, ?_, ?_⟩
    · have h1 := sameShape_applyAction s a
      have h2 := sameShape_applyAction t a
      obtain ⟨b1, b2, b3, b4, b5⟩ := h1
      obtain ⟨c1, c2, c3, c4, c5⟩ := h2
      exact ⟨by rw [c1, b1, a1], by rw [c2, b2, a2], by rw [c3, b3, a3],
        by rw [c4, b4, a4], by rw [c5, b5, a5]⟩
    · intro k
      cases a with
      | none => right; exact ⟨rfl, rfl⟩
      | some w =>
        obtain ⟨off, v⟩ := w
        simp only [applyAction, getD_storeLE, a5]
        by_cases hk : off ≤ k ∧ k < off + 4 ∧ k < s.pixels.length
        · left; rw [if_pos hk, if_pos hk]
        · right; rw [if_neg hk, if_neg hk]; exact ⟨rfl, rfl⟩

theorem flushList_two {charSigned : Bool} {l : List Pixel} :
    ∀ {s t s1 : SDL_Surface}, SameShape s t → flushList charSigned s l = some s1 →
    ∃ t1, flushList charSigned t l = some t1 ∧ SameShape s1 t1 ∧
      ∀ k, s1.pixels.getD k 0 = t1.pixels.getD k 0 ∨
        (s1.pixels.getD k 0 = s.pixels.getD k 0 ∧ t1.pixels.getD k 0 = t.pixels.getD k 0) := by
  induction l with
  | nil =>
    intro s t s1 hst h
    simp only [flushList, Option.some.injEq] at h
    subst h
    exact ⟨t, rfl, hst, fun k => Or.inr ⟨rfl, rfl⟩⟩
  | cons p l ih =>
    intro s t s1 hst h
    simp only [flushList] at h
    cases hp : flush_pixel charSigned s p with
    | none => rw [hp] at h; simp at h
    | some s2 =>
      rw [hp] at h
      obtain ⟨t2, ht2, hsh2, hb2⟩ := flush_pixel_two hst hp
      obtain ⟨t1, ht1, hsh1, hb1⟩ := ih hsh2 h
      refine ⟨t1, by simp only [flushList, ht2]; exact ht1, hsh1, ?_⟩
      intro k
      rcases hb1 k with e | ⟨e1, e2⟩
      · left; exact e
      · rcases hb2 k with e3 | ⟨e3, e4⟩
        · left; rw [e1, e2, e3]
        · right; exact ⟨e1.trans e3, e2.trans e4⟩

/-- Flushing the same entries again changes nothing. -/
theorem flushList_idem {charSigned : Bool} {l : List Pixel} {s s1 : SDL_Surface}
    (h : flushList charSigned s l = some s1) : flushList charSigned s1 l = some s1 := by
  have hsh := flushList_sameShape h
  obtain ⟨t1, ht1, hsh1, hb⟩ := flushList_two hsh h
  have hp : t1.pixels = s1.pixels := by
    apply list_eq_of_getD hsh1.2.2.2.2
    intro k
    rcases hb k with e | ⟨_, e2⟩
    · exact e.symm
    · exact e2
  rw [ht1, SDL_Surface.ext_of_sameShape hsh1 hp]

theorem StoreInBounds.of_sameShape {s t : SDL_Surface} {p : Pixel} (hst : SameShape s t)
    (h : StoreInBounds s p) : StoreInBounds t p := by
  obtain ⟨a1, _, _, a4, a5⟩ := hst
  unfold StoreInBounds
  rw [a1, a4, a5]
  exact h

theorem paletteEncoding_lt (format : SDL_PixelFormat) (i : Nat) :
    paletteEncoding format i < 4294967296 := by
  unfold paletteEncoding
  cases nes_palette_init[i]? with
  | none => exact Nat.zero_lt_succ _
  | some e =>
    obtain ⟨r, g, b⟩ := e
    exact Nat.mod_lt _ (by decide)

/-- An entry with non-negative coordinates, a defined store and a colour index in
`[0, 63]`: the iteration stores the encoding of its palette colour at its offset. -/
theorem flush_pixel_store (charSigned : Bool) (s : SDL_Surface) (p : Pixel)
    (hns : ¬ (p.x < 0 ∨ p.y < 0)) (hb : StoreInBounds s p) (h0 : 0 ≤ p.c) (h1 : p.c ≤ 63) :
    flush_pixel charSigned s p =
      some { s with pixels := (storeLE s.pixels (pixelOffset s p.x.toNat p.y.toNat) 4
        (paletteEncoding s.format p.c.toNat)) } := by
  obtain ⟨b1, b2, b3⟩ := hb
  obtain ⟨r, g, b, hrgb⟩ := nes_palette_init_some (i := p.c.toNat) (by omega)
  rw [flush_pixel_eq]
  unfold flushAction
  rw [if_neg hns, if_pos ⟨b1, b2⟩, paletteArgs_eq, toUnsignedInt_of_range h0 h1, hrgb]
  simp only [if_pos b3, Option.map_some', applyAction, paletteEncoding, hrgb, pixelOffset]

theorem flush_pixel_skip (charSigned : Bool) (s : SDL_Surface) (p : Pixel)
    (h : p.x < 0 ∨ p.y < 0) : flush_pixel charSigned s p = some s := by
  simp [flush_pixel, h]

/-- When every entry is either skipped or stores inside the pixel memory with a colour
index in `[0, 63]`, the loop runs to its end. -/
theorem flushList_defined (charSigned : Bool) (l : List Pixel) :
    ∀ s : SDL_Surface,
      (∀ p ∈ l, ¬ (p.x < 0 ∨ p.y < 0) → StoreInBounds s p ∧ 0 ≤ p.c ∧ p.c ≤ 63) →
      ∃ s1, flushList charSigned s l = some s1 := by
  induction l with
  | nil => intro s _; exact ⟨s, rfl⟩
  | cons p l ih =>
    intro s h
    have hex : ∃ s2, flush_pixel charSigned s p = some s2 := by
      by_cases hsk : p.x < 0 ∨ p.y < 0
      · exact ⟨s, flush_pixel_skip charSigned s p hsk⟩
      · obtain ⟨hb, h0, h1⟩ := h p (List.mem_cons_self _ _) hsk
        exact ⟨_, flush_pixel_store charSigned s p hsk hb h0 h1⟩
    obtain ⟨s2, hs2⟩ := hex
    have hsh := flush_pixel_sameShape hs2
    obtain ⟨s1, hs1⟩ := ih s2 (fun q hq hsk => by
      obtain ⟨hb, h0, h1⟩ := h q (List.mem_cons_of_mem _ hq) hsk
      exact ⟨hb.of_sameShape hsh, h0, h1⟩)
    exact ⟨s1, by simp only [flushList, hs2]; exact hs1⟩

/-- On a well-formed surface with 4-byte pixels the store of an entry whose coordinates
lie inside the surface is defined. -/
theorem storeInBounds_of_inSurface {s : SDL_Surface} (hs : s.WellFormed)
    (hbpp : s.format.BytesPerPixel = 4) {p : Pixel} (hns : ¬ (p.x < 0 ∨ p.y < 0))
    (hx : p.x < s.w) (hy : p.y < s.h) : StoreInBounds s p := by
  have hx2 : p.x.toNat < s.w := by omega
  have hy2 : p.y.toNat < s.h := by omega
  have h := pixel_in_memory hs hx2 hy2
  have h3 := hs.size
  have h4 := hs.range
  unfold StoreInBounds
  rw [hbpp] at h ⊢
  omega

/-- Last write wins on surfaces with 4-byte pixels: after the loop a pixel holds the
encoding of the colour of the last entry at its coordinates, or its old value when no
entry has its coordinates. -/
theorem flushList_getPixel (charSigned : Bool) (l : List Pixel) :
    ∀ s : SDL_Surface, s.WellFormed → s.format.BytesPerPixel = 4 →
      (∀ p ∈ l, ¬ (p.x < 0 ∨ p.y < 0) → p.x < s.w ∧ p.y < s.h ∧ 0 ≤ p.c ∧ p.c ≤ 63) →
      ∃ s1, flushList charSigned s l = some s1 ∧ SameShape s s1 ∧
        ∀ x y, x < s.w → y < s.h →
          getPixel s1 x y =
            match lastColorAt x y l with
            | some c => paletteEncoding s.format c.toNat
            | none => getPixel s x y := by
  induction l with
  | nil =>
    intro s _ _ _
    exact ⟨s, rfl, SameShape.refl s, fun x y _ _ => rfl⟩
  | cons p l ih =>
    intro s hs hbpp h
    by_cases hsk : p.x < 0 ∨ p.y < 0
    · obtain ⟨s1, hs1, hsh1, hpx⟩ := ih s hs hbpp
        (fun q hq => h q (List.mem_cons_of_mem _ hq))
      refine ⟨s1, by simp only [flushList, flush_pixel_skip charSigned s p hsk]; exact hs1,
        hsh1, ?_⟩
      intro x y hx hy
      rw [hpx x y hx hy]
      simp only [lastColorAt]
      cases lastColorAt x y l with
      | some c => rfl
      | none =>
        have : ¬ (p.x = (x : Int) ∧ p.y = (y : Int)) := by omega
        simp only [this, if_false]
    · obtain ⟨hpx, hpy, h0, h1⟩ := h p (List.mem_cons_self _ _) hsk
      have hstore := flush_pixel_store charSigned s p hsk
        (storeInBounds_of_inSurface hs hbpp hsk hpx hpy) h0 h1
      have hput : ({ s with pixels := (storeLE s.pixels (pixelOffset s p.x.toNat p.y.toNat) 4
          (paletteEncoding s.format p.c.toNat)) } : SDL_Surface) =
          putPixel s p.x.toNat p.y.toNat (paletteEncoding s.format p.c.toNat) := by
        simp only [putPixel, hbpp]
      rw [hput] at hstore
      have hsh2 := sameShape_putPixel s p.x.toNat p.y.toNat (paletteEncoding s.format p.c.toNat)
      have hwf2 := hsh2.wellFormed hs
      obtain ⟨a1, a2, a3, a4, a5⟩ := hsh2
      obtain ⟨s1, hs1, hsh1, hpix⟩ := ih _ hwf2 (by rw [a1]; exact hbpp)
        (fun q hq hq2 => by rw [a2, a3]; exact h q (List.mem_cons_of_mem _ hq) hq2)
      refine ⟨s1, by simp only [flushList, hstore]; exact hs1,
        SameShape.trans ⟨a1, a2, a3, a4, a5⟩ hsh1, ?_⟩
      intro x y hx hy
      rw [hpix x y (by rw [a2]; exact hx) (by rw [a3]; exact hy), a1]
      simp only [lastColorAt]
      cases lastColorAt x y l with
      | some c => rfl
      | none =>
        have hx2 : p.x.toNat < s.w := by omega
        have hy2 : p.y.toNat < s.h := by omega
        by_cases hxy : p.x = (x : Int) ∧ p.y = (y : Int)
        · rw [if_pos hxy]
          have e1 : p.x.toNat = x := by omega
          have e2 : p.y.toNat = y := by omega
          rw [e1, e2, getPixel_putPixel_same hs hx hy, hbpp]
          exact Nat.mod_eq_of_lt (paletteEncoding_lt _ _)
        · rw [if_neg hxy]
          apply getPixel_putPixel_other hs hx2 hx
          intro heq
          simp only [Prod.mk.injEq] at heq
          omega

theorem wait_for_frame_append (host : Host) (pre q : List SDL_Event) :
    ∀ st, NoTickNoQuit pre →
      wait_for_frame host st (pre ++ q) = wait_for_frame host (process_events host st pre) q := by
  induction pre with
  | nil => intro st _; rfl
  | cons e pre ih =>
    intro st h
    have he := h e (List.mem_cons_self _ _)
    have hpre : NoTickNoQuit pre := fun d hd => h d (List.mem_cons_of_mem _ hd)
    cases e with
    | SDL_CONTROLLERDEVICEADDED which =>
      simp only [List.cons_append, wait_for_frame, process_events, List.foldl_cons, handle_event]
      exact ih _ hpre
    | SDL_CONTROLLERDEVICEREMOVED which =>
      simp only [List.cons_append, wait_for_frame, process_events, List.foldl_cons, handle_event]
      exact ih _ hpre
    | SDL_USEREVENT => exact absurd rfl he.1
    | SDL_QUIT => exact absurd rfl he.2
    | other =>
      simp only [List.cons_append, wait_for_frame, process_events, List.foldl_cons, handle_event]
      exact ih _ hpre

theorem wait_for_frame_tick (host : Host) (st : ControllerState) (pre rest : List SDL_Event)
    (h : NoTickNoQuit pre) :
    wait_for_frame host st (pre ++ .SDL_USEREVENT :: rest) =
      .returned (process_events host st pre) rest := by
  rw [wait_for_frame_append host pre _ st h]
  rfl

theorem wait_for_frame_blocked (host : Host) (st : ControllerState) (q : List SDL_Event)
    (h : NoTickNoQuit q) :
    wait_for_frame host st q = .blocked (process_events host st q) := by
  have := wait_for_frame_append host q [] st h
  rw [List.append_nil] at this
  rw [this]
  rfl

theorem wait_for_frame_returned (host : Host) (q : List SDL_Event) :
    ∀ (st st1 : ControllerState) (rest : List SDL_Event),
      wait_for_frame host st q = .returned st1 rest →
      ∃ pre, q = pre ++ .SDL_USEREVENT :: rest ∧ NoTickNoQuit pre ∧
        st1 = process_events host st pre := by
  induction q with
  | nil => intro st st1 rest h; simp [wait_for_frame] at h
  | cons e q ih =>
    intro st st1 rest h
    have hcons : ∀ (st2 : ControllerState), e ≠ .SDL_USEREVENT → e ≠ .SDL_QUIT →
        st2 = handle_event host st e → wait_for_frame host st2 q = .returned st1 rest →
        ∃ pre, e :: q = pre ++ .SDL_USEREVENT :: rest ∧ NoTickNoQuit pre ∧
          st1 = process_events host st pre := by
      intro st2 h1 h2 hst2 hw
      obtain ⟨pre, hq, hpre, hst1⟩ := ih st2 st1 rest hw
      refine ⟨e :: pre, by rw [hq]; rfl, ?_, ?_⟩
      · intro d hd
        rcases List.mem_cons.mp hd with hd | hd
        · rw [hd]; exact ⟨h1, h2⟩
        · exact hpre d hd
      · rw [hst1, hst2]; rfl
    cases e with
    | SDL_CONTROLLERDEVICEADDED which =>
      exact hcons _ (by simp) (by simp) rfl (by simpa [wait_for_frame] using h)
    | SDL_CONTROLLERDEVICEREMOVED which =>
      exact hcons _ (by simp) (by simp) rfl (by simpa [wait_for_frame, handle_event] using h)
    | SDL_USEREVENT =>
      simp only [wait_for_frame, WaitResult.returned.injEq] at h
      refine ⟨[], by rw [h.2]; rfl, fun d hd => by simp at hd, by rw [← h.1]; rfl⟩
    | SDL_QUIT => simp [wait_for_frame] at h
    | other =>
      exact hcons _ (by simp) (by simp) rfl (by simpa [wait_for_frame] using h)

theorem wait_frames_segments (host : Host) (segs : List (List SDL_Event)) :
    ∀ (st : ControllerState) (rest : List SDL_Event), (∀ seg ∈ segs, NoTickNoQuit seg) →
      wait_frames host segs.length st
          ((segs.map fun seg => seg ++ [.SDL_USEREVENT]).flatten ++ rest) =
        .returned (process_events host st segs.flatten) rest := by
  induction segs with
  | nil => intro st rest _; rfl
  | cons seg segs ih =>
    intro st rest h
    have hseg := h seg (List.mem_cons_self _ _)
    simp only [List.map_cons, List.flatten_cons, List.length_cons, wait_frames,
      List.append_assoc, List.singleton_append, List.cons_append, List.nil_append]
    rw [wait_for_frame_tick host st seg _ hseg]
    simp only
    rw [ih _ rest (fun d hd => h d (List.mem_cons_of_mem _ hd))]
    simp [process_events]

theorem surface32_wellFormed : surface32.WellFormed := by
  refine ⟨by decide, by decide, by decide, by decide, by decide, ?_⟩
  intro r g b
  show (r % 256 * 65536 + g % 256 * 256 + b % 256) % 4294967296 < 256 ^ 4
  omega

theorem surface16_wellFormed : surface16.WellFormed := by
  refine ⟨by decide, by decide, by decide, by decide, by decide, ?_⟩
  intro r g b
  show (r % 256 / 8 * 2048 + g % 256 / 4 * 32 + b % 256 / 8) % 4294967296 < 256 ^ 2
  omega

theorem sameShape_foldl_putPixel (f : Nat × Nat → Nat) (cs : List (Nat × Nat)) :
    ∀ s : SDL_Surface, SameShape s (cs.foldl (fun acc c => putPixel acc c.1 c.2 (f c)) s) := by
  induction cs with
  | nil => intro s; exact SameShape.refl s
  | cons c cs ih =>
    intro s
    exact (sameShape_putPixel s c.1 c.2 (f c)).trans (ih _)

theorem sameShape_FillRect (s : SDL_Surface) (color : Nat) :
    SameShape s (SDL_FillRect s color) :=
  sameShape_foldl_putPixel (fun _ => color) _ s

theorem sameShape_BlitSurface (src dst : SDL_Surface) :
    SameShape dst (SDL_BlitSurface src dst) :=
  sameShape_foldl_putPixel (fun c => getPixel src c.1 c.2) _ dst

theorem nes_set_bg_color_eq (charSigned : Bool) (s : SDL_Surface) {c : Int}
    (h0 : 0 ≤ c) (h1 : c ≤ 63) :
    nes_set_bg_color charSigned s c =
      some (SDL_FillRect s (paletteEncoding s.format c.toNat)) := by
  obtain ⟨r, g, b, hrgb⟩ := nes_palette_init_some (i := c.toNat) (by omega)
  unfold nes_set_bg_color
  rw [if_neg (by omega), paletteArgs_eq, hrgb]
  simp only [paletteEncoding, hrgb]

theorem paletteEncoding_lt_of_wellFormed {s : SDL_Surface} (hs : s.WellFormed) {i : Nat}
    (hi : i < 64) : paletteEncoding s.format i < 256 ^ s.format.BytesPerPixel := by
  obtain ⟨r, g, b, hrgb⟩ := nes_palette_init_some hi
  simp only [paletteEncoding, hrgb]
  exact hs.encode_lt r g b

/-- Last write wins for `nes_flush_buf` on a surface with 4-byte pixels. -/
theorem nes_flush_buf_getPixel (charSigned : Bool) (s : SDL_Surface) (buf : PixelBuf)
    (hs : s.WellFormed) (hbpp : s.format.BytesPerPixel = 4)
    (hsize : buf.size ≤ buf.buf.length)
    (hin : ∀ p ∈ entries buf, ¬ (p.x < 0 ∨ p.y < 0) →
      p.x < s.w ∧ p.y < s.h ∧ 0 ≤ p.c ∧ p.c ≤ 63) :
    ∃ s1, nes_flush_buf charSigned s buf = some (s1, buf) ∧ SameShape s s1 ∧
      ∀ x y, x < s.w → y < s.h →
        getPixel s1 x y =
          match lastColorAt x y (entries buf) with
          | some c => paletteEncoding s.format c.toNat
          | none => getPixel s x y := by
  obtain ⟨s1, h1, h2, h3⟩ := flushList_getPixel charSigned (entries buf) s hs hbpp hin
  exact ⟨s1, by rw [nes_flush_buf_eq charSigned s buf hsize, h1]; rfl, h2, h3⟩

/-- C10: the palette table has exactly 64 entries; for every colour index `i` in
`[0, 63]` the lookup is in range and the three channel values handed to `SDL_MapRGB`
are the bytes written in the initialiser, each in `[0, 255]`; index 0x00 gives
`(0x80, 0x80, 0x80)` and index 0x20 gives `(0xFF, 0xFF, 0xFF)`. This holds whether
`char` is signed or unsigned: the argument is the stored `char` taken modulo 2^8, and
with a signed `char` the stored value of 0x80 is -128. -/
theorem palette_lookup_total (charSigned : Bool) :
    (nes_palette charSigned).length = 64 ∧
    (∀ i : Nat, i ≤ 63 →
      ∃ e r g b, (nes_palette charSigned)[i]? = some e ∧
        nes_palette_init[i]? = some (r, g, b) ∧
        paletteArgs charSigned i = some (r, g, b) ∧
        r = (e.r % 256).toNat ∧ g = (e.g % 256).toNat ∧ b = (e.b % 256).toNat ∧
        r ≤ 255 ∧ g ≤ 255 ∧ b ≤ 255) ∧
    paletteArgs charSigned 0x00 = some (0x80, 0x80, 0x80) ∧
    paletteArgs charSigned 0x20 = some (0xFF, 0xFF, 0xFF) ∧
    (nes_palette true)[0]? = some { r := -128, g := -128, b := -128 } := by
  refine ⟨by simp [nes_palette, nes_palette_init_length], ?_, ?_, ?_, by decide⟩
  · intro i hi
    obtain ⟨r, g, b, hrgb⟩ := nes_palette_init_some (i := i) (by omega)
    have hlt := nes_palette_init_lt _ (List.getElem?_mem hrgb)
    have hargs := paletteArgs_eq charSigned i
    rw [hrgb] at hargs
    have hargs2 := hargs
    unfold paletteArgs at hargs2
    cases he : (nes_palette charSigned)[i]? with
    | none => rw [he] at hargs2; simp at hargs2
    | some e =>
      rw [he] at hargs2
      simp only [Option.map_some', Option.some.injEq, Prod.mk.injEq, toUint8] at hargs2
      obtain ⟨e1, e2, e3⟩ := hargs2
      refine ⟨e, r, g, b, rfl, hrgb, hargs, e1.symm, e2.symm, e3.symm, ?_, ?_, ?_⟩
      · exact Nat.le_of_lt_succ hlt.1
      · exact Nat.le_of_lt_succ hlt.2.1
      · exact Nat.le_of_lt_succ hlt.2.2
  · rw [paletteArgs_eq]; rfl
  · rw [paletteArgs_eq]; rfl

/-- Witness of `palette_lookup_total` at colour index 63 with a signed `char`. -/
theorem palette_lookup_total_witness :
    ∃ e r g b, (nes_palette true)[63]? = some e ∧
      nes_palette_init[63]? = some (r, g, b) ∧
      paletteArgs true 63 = some (r, g, b) ∧
      r = (e.r % 256).toNat ∧ g = (e.g % 256).toNat ∧ b = (e.b % 256).toNat ∧
      r ≤ 255 ∧ g ≤ 255 ∧ b ≤ 255 :=
  (palette_lookup_total true).2.1 63 (by decide)

/-- C5: with no controller handle held (`controller == NULL`), `nes_key_state(b)`
returns 0 for every button identifier `b`, in particular for the nine identifiers
1..9, whatever the host devices are. -/
theorem key_state_without_controller (host : Host) (st : ControllerState)
    (h : st.controller = none) (b : Int) : nes_key_state host st b = some 0 := by
  unfold nes_key_state
  rw [h]

/-- Witness of `key_state_without_controller`: START queried while it is held down on
the host, with no controller attached. -/
theorem key_state_without_controller_witness :
    nes_key_state hostStartHeld { controller := none, controller_id := 0 } 4 = some 0 :=
  key_state_without_controller hostStartHeld { controller := none, controller_id := 0 } rfl 4

/-- C6: after `wait_for_frame` has processed a controller-attached notification for
device `d` whose open succeeds, `nes_key_state(4)` returns 1 while START is pressed;
after a later `wait_for_frame` has processed a controller-removed notification with the
same identifier `d`, `nes_key_state(4)` returns 0 although START is still pressed. -/
theorem attach_press_detach (host : Host) (st : ControllerState) (d : Int) (handle : Nat)
    (hopen : host.openController d = some handle)
    (hpress : host.pressed handle .SDL_CONTROLLER_BUTTON_START = true)
    (pre rest rest2 : List SDL_Event) (hpre : NoTickNoQuit pre) :
    ∃ st1 st2,
      wait_for_frame host st
          (pre ++ .SDL_CONTROLLERDEVICEADDED d :: .SDL_USEREVENT :: rest) =
        .returned st1 rest ∧
      nes_key_state host st1 4 = some 1 ∧
      wait_for_frame host st1 (.SDL_CONTROLLERDEVICEREMOVED d :: .SDL_USEREVENT :: rest2) =
        .returned st2 rest2 ∧
      nes_key_state host st2 4 = some 0 := by
  refine ⟨{ controller_id := d, controller := some handle },
    { controller_id := d, controller := none }, ?_, ?_, ?_, ?_⟩
  · rw [wait_for_frame_append host pre _ st hpre]
    simp only [wait_for_frame, hopen]
  · simp [nes_key_state, button_t.ofInt, hpress]
  · simp [wait_for_frame]
  · rfl

/-- Witness of `attach_press_detach` for device 3 on a host where START is held. -/
theorem attach_press_detach_witness :
    ∃ st1 st2,
      wait_for_frame hostStartHeld { controller := none, controller_id := 0 }
          ([.other] ++ .SDL_CONTROLLERDEVICEADDED 3 :: .SDL_USEREVENT :: []) =
        .returned st1 [] ∧
      nes_key_state hostStartHeld st1 4 = some 1 ∧
      wait_for_frame hostStartHeld st1
          (.SDL_CONTROLLERDEVICEREMOVED 3 :: .SDL_USEREVENT :: [.SDL_USEREVENT]) =
        .returned st2 [.SDL_USEREVENT] ∧
      nes_key_state hostStartHeld st2 4 = some 0 :=
  attach_press_detach hostStartHeld { controller := none, controller_id := 0 } 3 7 rfl rfl
    [.other] [] [.SDL_USEREVENT] (by decide)

/-- C7: frame pacing on a queue modelled as a sequence. (1) A call that returns has
taken exactly the events up to and including the first timer tick, none of them a quit
event, and leaves every later event in the queue. (2) On a queue without tick and quit
the call does not return: it is still blocked when the queue is used up. (3) With no
quit before the first tick the call returns at that tick, whatever events (any number
of attach/detach notifications, none included) precede it. (4) `n` calls on a queue of
`n` such segments, each closed by a tick, return having consumed exactly those `n`
ticks. -/
theorem frame_pacing (host : Host) (st : ControllerState) :
    (∀ q st1 rest, wait_for_frame host st q = .returned st1 rest →
      ∃ pre, q = pre ++ .SDL_USEREVENT :: rest ∧ NoTickNoQuit pre ∧
        st1 = process_events host st pre) ∧
    (∀ q, NoTickNoQuit q → wait_for_frame host st q = .blocked (process_events host st q)) ∧
    (∀ pre rest, NoTickNoQuit pre →
      wait_for_frame host st (pre ++ .SDL_USEREVENT :: rest) =
        .returned (process_events host st pre) rest) ∧
    (∀ (segs : List (List SDL_Event)) rest, (∀ seg ∈ segs, NoTickNoQuit seg) →
      wait_frames host segs.length st
          ((segs.map fun seg => seg ++ [.SDL_USEREVENT]).flatten ++ rest) =
        .returned (process_events host st segs.flatten) rest ∧
      ((segs.map fun seg => seg ++ [.SDL_USEREVENT]).flatten).count .SDL_USEREVENT =
        segs.length) := by
  refine ⟨fun q st1 rest h => wait_for_frame_returned host q st st1 rest h,
    fun q h => wait_for_frame_blocked host st q h,
    fun pre rest h => wait_for_frame_tick host st pre rest h, ?_⟩
  intro segs rest h
  refine ⟨wait_frames_segments host segs st rest h, ?_⟩
  clear st rest
  induction segs with
  | nil => rfl
  | cons seg segs ih =>
    have hseg := h seg (List.mem_cons_self _ _)
    have h0 : seg.count .SDL_USEREVENT = 0 :=
      List.count_eq_zero.mpr (fun hm => (hseg _ hm).1 rfl)
    simp only [List.map_cons, List.flatten_cons, List.count_append, List.length_cons, h0,
      ih (fun d hd => h d (List.mem_cons_of_mem _ hd))]
    simp
    omega

/-- Witness of `frame_pacing`: two attach/detach notifications before the first tick,
a second tick left in the queue. -/
theorem frame_pacing_witness :
    wait_for_frame hostStartHeld { controller := none, controller_id := 0 }
        ([.SDL_CONTROLLERDEVICEADDED 1, .SDL_CONTROLLERDEVICEREMOVED 1] ++
          .SDL_USEREVENT :: [.SDL_CONTROLLERDEVICEADDED 2, .SDL_USEREVENT]) =
      .returned (process_events hostStartHeld { controller := none, controller_id := 0 }
        [.SDL_CONTROLLERDEVICEADDED 1, .SDL_CONTROLLERDEVICEREMOVED 1])
        [.SDL_CONTROLLERDEVICEADDED 2, .SDL_USEREVENT] :=
  (frame_pacing hostStartHeld { controller := none, controller_id := 0 }).2.2.1
    [.SDL_CONTROLLERDEVICEADDED 1, .SDL_CONTROLLERDEVICEREMOVED 1]
    [.SDL_CONTROLLERDEVICEADDED 2, .SDL_USEREVENT] (by decide)

/-- C8, counterexample: with one attach notification and one tick pending, the tick
first, `wait_for_frame` returns at the tick with the notification still in the queue
and the controller handle still `NULL`; with the notification first, the handle is
set. The order in the queue decides. -/
theorem tie_break_counterexample :
    wait_for_frame hostStartHeld { controller := none, controller_id := 0 }
        [.SDL_USEREVENT, .SDL_CONTROLLERDEVICEADDED 0] =
      .returned { controller := none, controller_id := 0 } [.SDL_CONTROLLERDEVICEADDED 0] ∧
    wait_for_frame hostStartHeld { controller := none, controller_id := 0 }
        [.SDL_CONTROLLERDEVICEADDED 0, .SDL_USEREVENT] =
      .returned { controller := some 7, controller_id := 0 } [] := by
  decide

/-- C8, amended: events are taken in queue order. The attach/detach notifications that
precede the tick have all been processed, in order, when `wait_for_frame` returns, and
exactly that one tick ends the wait; the notifications that follow the tick are left in
the queue, do not affect the controller handle yet, and are processed by the next call
before its own tick. -/
theorem tie_break_queue_order (host : Host) (st : ControllerState)
    (before after rest : List SDL_Event)
    (hb : ∀ e ∈ before, ∃ which, e = .SDL_CONTROLLERDEVICEADDED which ∨
      e = .SDL_CONTROLLERDEVICEREMOVED which)
    (ha : ∀ e ∈ after, ∃ which, e = .SDL_CONTROLLERDEVICEADDED which ∨
      e = .SDL_CONTROLLERDEVICEREMOVED which) :
    wait_for_frame host st (before ++ .SDL_USEREVENT :: after) =
      .returned (process_events host st before) after ∧
    wait_for_frame host (process_events host st before) (after ++ .SDL_USEREVENT :: rest) =
      .returned (process_events host (process_events host st before) after) rest := by
  have key : ∀ l : List SDL_Event, (∀ e ∈ l, ∃ which,
      e = .SDL_CONTROLLERDEVICEADDED which ∨ e = .SDL_CONTROLLERDEVICEREMOVED which) →
      NoTickNoQuit l := by
    intro l hl e he
    obtain ⟨which, h | h⟩ := hl e he <;> rw [h] <;> exact ⟨by simp, by simp⟩
  exact ⟨wait_for_frame_tick host st before after (key before hb),
    wait_for_frame_tick host _ after rest (key after ha)⟩

/-- Witness of `tie_break_queue_order`: one notification before the tick, one after. -/
theorem tie_break_queue_order_witness :
    wait_for_frame hostStartHeld { controller := none, controller_id := 0 }
        ([.SDL_CONTROLLERDEVICEADDED 5] ++ .SDL_USEREVENT :: [.SDL_CONTROLLERDEVICEREMOVED 5]) =
      .returned (process_events hostStartHeld { controller := none, controller_id := 0 }
        [.SDL_CONTROLLERDEVICEADDED 5]) [.SDL_CONTROLLERDEVICEREMOVED 5] ∧
    wait_for_frame hostStartHeld
        (process_events hostStartHeld { controller := none, controller_id := 0 }
          [.SDL_CONTROLLERDEVICEADDED 5])
        ([.SDL_CONTROLLERDEVICEREMOVED 5] ++ .SDL_USEREVENT :: []) =
      .returned (process_events hostStartHeld
        (process_events hostStartHeld { controller := none, controller_id := 0 }
          [.SDL_CONTROLLERDEVICEADDED 5]) [.SDL_CONTROLLERDEVICEREMOVED 5]) [] :=
  tie_break_queue_order hostStartHeld { controller := none, controller_id := 0 }
    [.SDL_CONTROLLERDEVICEADDED 5] [.SDL_CONTROLLERDEVICEREMOVED 5] []
    (by simp) (by simp)

/-- C2: skip rule. When every entry in use has `x < 0` or `y < 0`, whatever its colour
value and however many entries there are, `nes_flush_buf` returns with the surface
exactly as it was (and the buffer as it was): no pixel is written and no palette lookup
takes place, so colour values outside the table do no harm. -/
theorem flush_skip_rule (charSigned : Bool) (s : SDL_Surface) (buf : PixelBuf)
    (hsize : buf.size ≤ buf.buf.length)
    (hskip : ∀ p ∈ entries buf, p.x < 0 ∨ p.y < 0) :
    nes_flush_buf charSigned s buf = some (s, buf) := by
  rw [nes_flush_buf_eq charSigned s buf hsize]
  have key : ∀ l : List Pixel, (∀ p ∈ l, p.x < 0 ∨ p.y < 0) →
      flushList charSigned s l = some s := by
    intro l
    induction l with
    | nil => intro _; rfl
    | cons p l ih =>
      intro h
      simp only [flushList, flush_pixel_skip charSigned s p (h p (List.mem_cons_self _ _))]
      exact ih (fun q hq => h q (List.mem_cons_of_mem _ hq))
  rw [key _ hskip]
  rfl

/-- Witness of `flush_skip_rule`: two skipped entries with colours outside the table,
and a stale third array element beyond `size`. -/
theorem flush_skip_rule_witness :
    nes_flush_buf true surface32
        { buf := [⟨-1, 0, 200⟩, ⟨1, -5, -1⟩, ⟨0, 0, 1⟩], size := 2 } =
      some (surface32, { buf := [⟨-1, 0, 200⟩, ⟨1, -5, -1⟩, ⟨0, 0, 1⟩], size := 2 }) :=
  flush_skip_rule true surface32 { buf := [⟨-1, 0, 200⟩, ⟨1, -5, -1⟩, ⟨0, 0, 1⟩], size := 2 }
    (by decide) (by decide)

/-- C4: background fill. For every colour index `c` in `[0, 63]` and every prior content
of a surface, `nes_set_bg_color(c)` followed by `nes_flush_buf` on a buffer of size 0
leaves every pixel of the surface equal to the encoding of palette colour `c`. -/
theorem background_fill (charSigned : Bool) (s : SDL_Surface) (hs : s.WellFormed)
    (c : Int) (h0 : 0 ≤ c) (h1 : c ≤ 63) (buf : PixelBuf) (hempty : buf.size = 0) :
    ∃ s1, nes_set_bg_color charSigned s c = some s1 ∧
      nes_flush_buf charSigned s1 buf = some (s1, buf) ∧
      SameShape s s1 ∧
      ∀ x y, x < s.w → y < s.h → getPixel s1 x y = paletteEncoding s.format c.toNat := by
  refine ⟨SDL_FillRect s (paletteEncoding s.format c.toNat),
    nes_set_bg_color_eq charSigned s h0 h1, ?_, sameShape_FillRect s _, ?_⟩
  · unfold nes_flush_buf
    rw [hempty]
    rfl
  · intro x y hx hy
    rw [(getPixel_FillRect hs _ hx hy).2]
    exact Nat.mod_eq_of_lt (paletteEncoding_lt_of_wellFormed hs (by omega))

/-- Witness of `background_fill` on a 16-bit surface with colour 0x20 (white). -/
theorem background_fill_witness :
    ∃ s1, nes_set_bg_color false surface16 0x20 = some s1 ∧
      nes_flush_buf false s1 { buf := [⟨0, 0, 1⟩], size := 0 } =
        some (s1, { buf := [⟨0, 0, 1⟩], size := 0 }) ∧
      SameShape surface16 s1 ∧
      ∀ x y, x < surface16.w → y < surface16.h →
        getPixel s1 x y = paletteEncoding surface16.format (0x20 : Int).toNat :=
  background_fill false surface16 surface16_wellFormed 0x20 (by decide) (by decide)
    { buf := [⟨0, 0, 1⟩], size := 0 } rfl

/-- Idempotence of `nes_flush_buf` where the flush is defined. (1) Whenever a flush of
`buf` onto `s` is defined, it hands back `buf` unchanged, and flushing `buf` again onto
the resulting surface is defined and gives that same surface. (2) The flush is defined,
hence (1) applies, whenever `size` is within the array and every entry in use with
non-negative coordinates has its store inside the pixel memory and a colour index in
`[0, 63]`; (3) on a well-formed surface with 4-byte pixels that is the case as soon as
the coordinates of those entries lie inside the surface. -/
theorem flush_idempotent (charSigned : Bool) (s : SDL_Surface) (buf : PixelBuf) :
    (∀ s1 buf1, nes_flush_buf charSigned s buf = some (s1, buf1) →
      buf1 = buf ∧ nes_flush_buf charSigned s1 buf = some (s1, buf)) ∧
    (buf.size ≤ buf.buf.length →
      (∀ p ∈ entries buf, ¬ (p.x < 0 ∨ p.y < 0) →
        StoreInBounds s p ∧ 0 ≤ p.c ∧ p.c ≤ 63) →
      ∃ s1, nes_flush_buf charSigned s buf = some (s1, buf) ∧
        nes_flush_buf charSigned s1 buf = some (s1, buf)) ∧
    (s.WellFormed → s.format.BytesPerPixel = 4 → buf.size ≤ buf.buf.length →
      (∀ p ∈ entries buf, ¬ (p.x < 0 ∨ p.y < 0) →
        p.x < s.w ∧ p.y < s.h ∧ 0 ≤ p.c ∧ p.c ≤ 63) →
      ∃ s1, nes_flush_buf charSigned s buf = some (s1, buf) ∧
        nes_flush_buf charSigned s1 buf = some (s1, buf)) := by
  have loop_idem : ∀ (n i : Nat) (t t1 : SDL_Surface),
      flush_loop charSigned buf n i t = some t1 →
      i + n ≤ buf.buf.length ∨ n = 0 := by
    intro n
    induction n with
    | zero => intro i t t1 _; right; rfl
    | succ n ih =>
      intro i t t1 h
      left
      simp only [flush_loop] at h
      cases hi : buf.buf[i]? with
      | none => rw [hi] at h; simp at h
      | some p =>
        simp only [hi] at h
        have hlt : i < buf.buf.length := (List.getElem?_eq_some.mp hi).1
        cases hp : flush_pixel charSigned t p with
        | none => rw [hp] at h; simp at h
        | some t2 =>
          simp only [hp] at h
          rcases ih (i + 1) t2 t1 h with h2 | h2
          · omega
          · omega
  have first : ∀ s1 buf1, nes_flush_buf charSigned s buf = some (s1, buf1) →
      buf1 = buf ∧ nes_flush_buf charSigned s1 buf = some (s1, buf) := by
    intro s1 buf1 h
    unfold nes_flush_buf at h
    cases hl : flush_loop charSigned buf buf.size.toNat 0 s with
    | none => rw [hl] at h; simp at h
    | some t1 =>
      rw [hl] at h
      simp only [Option.map_some', Option.some.injEq, Prod.mk.injEq] at h
      obtain ⟨e1, e2⟩ := h
      subst e1
      refine ⟨e2.symm, ?_⟩
      rcases loop_idem _ _ _ _ hl with hle | hz
      · unfold nes_flush_buf
        rw [flush_loop_eq charSigned buf _ 0 s hle] at hl
        rw [flush_loop_eq charSigned buf _ 0 t1 hle, flushList_idem hl]
        rfl
      · unfold nes_flush_buf
        rw [hz] at hl ⊢
        simp only [flush_loop, Option.some.injEq] at hl
        rfl
  have second : buf.size ≤ buf.buf.length →
      (∀ p ∈ entries buf, ¬ (p.x < 0 ∨ p.y < 0) →
        StoreInBounds s p ∧ 0 ≤ p.c ∧ p.c ≤ 63) →
      ∃ s1, nes_flush_buf charSigned s buf = some (s1, buf) ∧
        nes_flush_buf charSigned s1 buf = some (s1, buf) := by
    intro hsize hin
    obtain ⟨s1, hs1⟩ := flushList_defined charSigned (entries buf) s hin
    have h1 : nes_flush_buf charSigned s buf = some (s1, buf) := by
      rw [nes_flush_buf_eq charSigned s buf hsize, hs1]
      rfl
    exact ⟨s1, h1, (first s1 buf h1).2⟩
  refine ⟨first, second, ?_⟩
  intro hs hbpp hsize hin
  exact second hsize (fun p hp hns => by
    obtain ⟨hx, hy, h0, h1⟩ := hin p hp hns
    exact ⟨storeInBounds_of_inSurface hs hbpp hns hx hy, h0, h1⟩)

/-- Witness of `flush_idempotent`: a buffer with overlapping stores on the 16-bit
surface and a skipped entry. -/
theorem flush_idempotent_witness :
    ∃ s1, nes_flush_buf true surface16
          { buf := [⟨1, 0, 0x20⟩, ⟨-1, 0, 99⟩, ⟨0, 0, 0x16⟩], size := 3 } =
        some (s1, { buf := [⟨1, 0, 0x20⟩, ⟨-1, 0, 99⟩, ⟨0, 0, 0x16⟩], size := 3 }) ∧
      nes_flush_buf true s1 { buf := [⟨1, 0, 0x20⟩, ⟨-1, 0, 99⟩, ⟨0, 0, 0x16⟩], size := 3 } =
        some (s1, { buf := [⟨1, 0, 0x20⟩, ⟨-1, 0, 99⟩, ⟨0, 0, 0x16⟩], size := 3 }) :=
  (flush_idempotent true surface16
    { buf := [⟨1, 0, 0x20⟩, ⟨-1, 0, 99⟩, ⟨0, 0, 0x16⟩], size := 3 }).2.1 (by decide) (by decide)

/-- C1, on a surface with 2-byte pixels: the buffer holds `(1,0,0x20)` then
`(0,0,0x0D)`, both inside the well-formed 3 by 1 surface; `(1,0,0x20)` is the last (and
only) entry at `(1,0)` and white encodes as 65535, yet after `nes_flush_buf` pixel
`(1,0)` holds 0: the 4-byte store of the later entry at `(0,0)` has overwritten it. -/
theorem flush_narrow_pixels_overwritten :
    surface16.WellFormed ∧
    (∀ p ∈ entries { buf := [⟨1, 0, 0x20⟩, ⟨0, 0, 0x0D⟩], size := 2 },
      0 ≤ p.x ∧ p.x < surface16.w ∧ 0 ≤ p.y ∧ p.y < surface16.h ∧ 0 ≤ p.c ∧ p.c ≤ 63) ∧
    lastColorAt 1 0 (entries { buf := [⟨1, 0, 0x20⟩, ⟨0, 0, 0x0D⟩], size := 2 }) = some 0x20 ∧
    paletteEncoding surface16.format 0x20 = 65535 ∧
    (nes_flush_buf true surface16 { buf := [⟨1, 0, 0x20⟩, ⟨0, 0, 0x0D⟩], size := 2 }).map
      (fun r => (r.1.pixels, getPixel r.1 1 0)) = some ([0, 0, 0, 0, 0, 0], 0) := by
  refine ⟨surface16_wellFormed, by decide, by decide, by decide, by decide⟩

/-- C3, counterexample: in the scenario as written the second entry `(1, 0, -1)` has
non-negative coordinates, so it is not skipped; its colour `-1` converts to the
unsigned index 4294967295, outside the 64-entry palette, and the frame has no defined
result. -/
theorem end_to_end_counterexample :
    toUnsignedInt (-1) = 4294967295 ∧
    paletteArgs true 4294967295 = none ∧
    (render_frame true surface32 surface32 0x0F
      { buf := [⟨0, 0, 0x21⟩, ⟨1, 0, -1⟩, ⟨0, 0, 0x0D⟩], size := 3 }).isNone = true := by
  refine ⟨by decide, by decide, by decide⟩

/-- C3, amended: the buffer holds `(0,0,0x21)`, an entry with a negative coordinate
(`x < 0` or `y < 0`, any colour) and `(0,0,0x0D)`; the surface is well formed with
4-byte pixels and the window surface has its format and size. Then
`nes_set_bg_color(0x0F)`, `nes_flush_buf`, `nes_flip_display` yield a displayed image in
which pixel `(0,0)` is the encoding of palette index 0x0D and every other pixel,
`(1,0)` included, is the encoding of the background index 0x0F. -/
theorem end_to_end_scenario (charSigned : Bool) (surface screen_surface : SDL_Surface)
    (hs : surface.WellFormed) (hbpp : surface.format.BytesPerPixel = 4)
    (hscr : screen_surface.WellFormed)
    (hfmt : screen_surface.format = surface.format)
    (hw : screen_surface.w = surface.w) (hh : screen_surface.h = surface.h)
    (hw0 : 0 < surface.w) (hh0 : 0 < surface.h)
    (skipped : Pixel) (hskip : skipped.x < 0 ∨ skipped.y < 0) :
    ∃ shown, render_frame charSigned surface screen_surface 0x0F
        { buf := [⟨0, 0, 0x21⟩, skipped, ⟨0, 0, 0x0D⟩], size := 3 } = some shown ∧
      SameShape screen_surface shown ∧
      ∀ x y, x < surface.w → y < surface.h →
        getPixel shown x y =
          if x = 0 ∧ y = 0 then paletteEncoding surface.format 0x0D
          else paletteEncoding surface.format 0x0F := by
  have hbg := background_fill charSigned surface hs 0x0F (by decide) (by decide)
    { buf := [], size := 0 } rfl
  obtain ⟨s1, hs1, -, hsh1, hpx1⟩ := hbg
  have hwf1 := hsh1.wellFormed hs
  obtain ⟨a1, a2, a3, a4, a5⟩ := hsh1
  have hfl := nes_flush_buf_getPixel charSigned s1
    { buf := [⟨0, 0, 0x21⟩, skipped, ⟨0, 0, 0x0D⟩], size := 3 } hwf1 (by rw [a1]; exact hbpp)
    (by show (3 : Int) ≤ ((3 : Nat) : Int); decide) (by
      intro p hp hns
      have hp2 : p = ⟨0, 0, 0x21⟩ ∨ p = skipped ∨ p = ⟨0, 0, 0x0D⟩ := by
        simpa [entries] using hp
      rw [a2, a3]
      rcases hp2 with h | h | h
      · subst h; exact ⟨by simpa using hw0, by simpa using hh0, by decide, by decide⟩
      · subst h; exact absurd hskip hns
      · subst h; exact ⟨by simpa using hw0, by simpa using hh0, by decide, by decide⟩)
  obtain ⟨s2, hs2, hsh2, hpx2⟩ := hfl
  obtain ⟨b1, b2, b3, b4, b5⟩ := hsh2
  refine ⟨nes_flip_display s2 screen_surface, ?_, sameShape_BlitSurface s2 screen_surface, ?_⟩
  · simp only [render_frame, hs1, hs2]
  · intro x y hx hy
    have hx2 : x < min s2.w screen_surface.w := by rw [b2, a2, hw]; simpa using hx
    have hy2 : y < min s2.h screen_surface.h := by rw [b3, a3, hh]; simpa using hy
    unfold nes_flip_display
    rw [getPixel_BlitSurface hscr hx2 hy2, hpx2 x y (by rw [a2]; exact hx) (by rw [a3]; exact hy),
      hfmt, hbpp, a1]
    have hent : entries { buf := [⟨0, 0, 0x21⟩, skipped, ⟨0, 0, 0x0D⟩], size := 3 } =
        [⟨0, 0, 0x21⟩, skipped, ⟨0, 0, 0x0D⟩] := rfl
    rw [hent]
    by_cases hxy : x = 0 ∧ y = 0
    · obtain ⟨rfl, rfl⟩ := hxy
      simp only [lastColorAt, and_self, if_true]
      exact Nat.mod_eq_of_lt (paletteEncoding_lt _ _)
    · have hne : ¬ ((0 : Int) = (x : Int) ∧ (0 : Int) = (y : Int)) := by omega
      have hne2 : ¬ (skipped.x = (x : Int) ∧ skipped.y = (y : Int)) := by omega
      simp only [lastColorAt, if_neg hne, if_neg hne2, if_neg hxy]
      rw [hpx1 x y hx hy]
      exact Nat.mod_eq_of_lt (paletteEncoding_lt _ _)

/-- Witness of `end_to_end_scenario` on the 2 by 1 32-bit surface with skipped entry
`(-1, 0, 1)`. -/
theorem end_to_end_scenario_witness :
    ∃ shown, render_frame true surface32 surface32 0x0F
        { buf := [⟨0, 0, 0x21⟩, ⟨-1, 0, 1⟩, ⟨0, 0, 0x0D⟩], size := 3 } = some shown ∧
      SameShape surface32 shown ∧
      ∀ x y, x < surface32.w → y < surface32.h →
        getPixel shown x y =
          if x = 0 ∧ y = 0 then paletteEncoding surface32.format 0x0D
          else paletteEncoding surface32.format 0x0F :=
  end_to_end_scenario true surface32 surface32 surface32_wellFormed rfl surface32_wellFormed
    rfl rfl rfl (by decide) (by decide) ⟨-1, 0, 1⟩ (by decide)

end LiteNES
